import Mathlib

/-!
Shallow embedding of the bitcoin-inscription-scanner core
(src/parser/inscription.rs and src/parser/parallel.rs).

Scripts are modelled at the instruction-stream level: a script is the
sequence of items yielded by the rust-bitcoin script instruction iterator,
each item being either a decoded instruction or a decode error.  The
iterator of the bitcoin crate never yields anything after an error (it
exhausts the underlying data on error), so realizable streams have an
error only in terminal position; theorems that depend on this state it
explicitly.

Bytes are modelled as natural numbers; Rust strings are modelled by their
UTF-8 byte sequences, with validUtf8 implementing the exact validation of
Rust's String::from_utf8 (Unicode ranges, no overlongs, no surrogates).
-/

namespace Scanner

/-- A decoded script instruction: a bare opcode or a data push. -/
inductive Instr where
  | op (code : Nat)
  | push (data : List Nat)
deriving DecidableEq

/-- One item of the instruction iterator: a decoded instruction or a
decode error (malformed push length or truncated script). -/
inductive InstrResult where
  | ok (i : Instr)
  | err
deriving DecidableEq

/-- A script, as the stream of items its instruction iterator yields. -/
abbrev Script := List InstrResult

/-- Transaction input: previous-output null flag (coinbase sentinel),
signature script, sequence number and segregated-witness stack. -/
structure TxIn where
  prevoutIsNull : Bool
  scriptSig : Script
  sequence : Nat
  witness : List (List Nat)
deriving DecidableEq

/-- Transaction output: value and public-key script. -/
structure TxOut where
  value : Nat
  scriptPubkey : Script
deriving DecidableEq

/-- Transaction: identifier (32-byte hash, kept abstract as its byte
list), inputs and outputs, plus the fields the parser ignores. -/
structure Transaction where
  version : Nat
  lockTime : Nat
  txid : List Nat
  input : List TxIn
  output : List TxOut
deriving DecidableEq

/-- A block: header (ignored by the core) and transaction list. -/
structure Block where
  header : Nat
  txdata : List Transaction
deriving DecidableEq

/-- InscriptionType from inscription.rs: Text, Image or Unknown. -/
inductive InscriptionType where
  | text (s : List Nat)
  | image (mimeType : List Nat) (data : List Nat)
  | unknown (bs : List Nat)
deriving DecidableEq

/-- Inscription from inscription.rs: txid plus classified content. -/
structure Inscription where
  txid : List Nat
  content : InscriptionType
deriving DecidableEq

/-- Opcode OP_IF (0x63). -/
def OP_IF : Nat := 99

/-- Opcode OP_ENDIF (0x68). -/
def OP_ENDIF : Nat := 104

/-- Continuation byte of a UTF-8 sequence: 0x80..0xBF. -/
def isCont (c : Nat) : Bool := 128 ≤ c && c < 192

/-- UTF-8 validity exactly as checked by Rust's String::from_utf8:
ASCII, 2-byte C2..DF, 3-byte E0/E1..EC/ED/EE..EF with the usual second
byte restrictions (no overlongs, no surrogates), 4-byte F0..F4 with the
usual second-byte restrictions (no overlongs, max U+10FFFF). -/
def validUtf8 : List Nat → Bool
  | [] => true
  | b :: rest =>
    if b < 128 then validUtf8 rest
    else if b < 194 then false
    else if b < 224 then
      match rest with
      | c1 :: rest2 => isCont c1 && validUtf8 rest2
      | [] => false
    else if b < 240 then
      match rest with
      | c1 :: c2 :: rest3 =>
          (if b = 224 then decide (160 ≤ c1) && decide (c1 < 192)
           else if b = 237 then decide (128 ≤ c1) && decide (c1 < 160)
           else isCont c1) && isCont c2 && validUtf8 rest3
      | _ => false
    else if b < 245 then
      match rest with
      | c1 :: c2 :: c3 :: rest4 =>
          (if b = 240 then decide (144 ≤ c1) && decide (c1 < 192)
           else if b = 244 then decide (128 ≤ c1) && decide (c1 < 144)
           else isCont c1) && isCont c2 && isCont c3 && validUtf8 rest4
      | _ => false
    else false

/-- Rust String::from_utf8 on the byte-list model of strings: the same
bytes when valid, nothing otherwise. -/
def string_from_utf8 (bs : List Nat) : Option (List Nat) :=
  if validUtf8 bs then some bs else none

/-- Lower-case hex digit character code for a nibble. -/
def hexDigitChar (n : Nat) : Nat := if n < 10 then 48 + n else 97 + (n - 10)

/-- Two lower-case hex digit characters of one byte (high nibble first),
as produced by the hex crate's encode and by the bitcoin Txid display. -/
def byteToHex (b : Nat) : List Nat := [hexDigitChar (b / 16 % 16), hexDigitChar (b % 16)]

/-- hex::encode on a byte list. -/
def hexEncode (bs : List Nat) : List Nat := bs.flatMap byteToHex

/-- Value of one hex digit character (both cases accepted). -/
def hexDigitVal (c : Nat) : Option Nat :=
  if 48 ≤ c ∧ c ≤ 57 then some (c - 48)
  else if 97 ≤ c ∧ c ≤ 102 then some (c - 87)
  else if 65 ≤ c ∧ c ≤ 70 then some (c - 55)
  else none

/-- Parse a character list as consecutive hex digit pairs. -/
def hexPairsToBytes : List Nat → Option (List Nat)
  | [] => some []
  | c1 :: c2 :: rest =>
    match hexDigitVal c1, hexDigitVal c2, hexPairsToBytes rest with
    | some h, some l, some bs => some ((16 * h + l) :: bs)
    | _, _, _ => none
  | [_] => none

/-- hex::decode on a character list (fails on odd length or non-digit). -/
def hexDecode (s : List Nat) : Option (List Nat) := hexPairsToBytes s

/-- The zero check used twice in inscription.rs: OP_FALSE and OP_0 are
both opcode 0x00, and an explicit push of the empty byte string also
counts as zero. -/
def is_zero_instr : Instr → Bool
  | .op code => code = 0
  | .push d => d.isEmpty

/-- Loop body of InscriptionParser::parse_inscription_content
(inscription.rs lines 288-318): while the iterator yields Ok items,
OP_ENDIF breaks, a push appends to the current buffer (and, while reading
the content type, a one-token peek consumes a zero acting as the
content-type/content separator), and any other opcode is skipped.  The
loop also stops when the iterator yields a decode error (the while-let
pattern fails on it).  Returns the collected (content_type, content). -/
def contentLoopGo : Nat → Script → List Nat → List Nat → Bool → List Nat × List Nat
  | 0, _, ct, c, _ => (ct, c)
  | _ + 1, [], ct, c, _ => (ct, c)
  | _ + 1, .err :: _, ct, c, _ => (ct, c)
  | fuel + 1, .ok (.op code) :: rest, ct, c, rct =>
    if code = OP_ENDIF then (ct, c) else contentLoopGo fuel rest ct c rct
  | fuel + 1, .ok (.push d) :: rest, ct, c, rct =>
    if rct then
      match rest with
      | .ok i :: rest2 =>
        if is_zero_instr i then contentLoopGo fuel rest2 (ct ++ d) c false
        else contentLoopGo fuel rest (ct ++ d) c true
      | _ => contentLoopGo fuel rest (ct ++ d) c true
    else contentLoopGo fuel rest ct (c ++ d) rct

/-- The collection loop, started with enough fuel for the whole stream
(each iteration of the source loop consumes at least one item). -/
def contentLoop (s : Script) (ct c : List Nat) (rct : Bool) : List Nat × List Nat :=
  contentLoopGo s.length s ct c rct

/-- The literal MIME string text/plain;charset=utf-8 as its ASCII bytes. -/
def textPlainType : List Nat :=
  [116, 101, 120, 116, 47, 112, 108, 97, 105, 110, 59, 99, 104, 97, 114,
   115, 101, 116, 61, 117, 116, 102, 45, 56]

/-- The literal prefix image/ as its ASCII bytes. -/
def imageSlash : List Nat := [105, 109, 97, 103, 101, 47]

/-- InscriptionParser::classify_inscription (inscription.rs 339-356):
decode the content type as UTF-8 (nothing on failure); exact match of
text/plain;charset=utf-8 yields Text of the UTF-8 decoded content
(nothing on failure); an image/ prefix yields Image; anything else
yields Unknown of the raw content. -/
def classify_inscription (content_type content : List Nat) : Option InscriptionType :=
  match string_from_utf8 content_type with
  | none => none
  | some ct =>
    if ct = textPlainType then
      (string_from_utf8 content).map InscriptionType.text
    else if imageSlash.isPrefixOf ct then
      some (InscriptionType.image ct content)
    else
      some (InscriptionType.unknown content)

/-- InscriptionParser::parse_inscription_content (inscription.rs
280-324): run the collection loop with empty buffers, phase = content
type, then classify the collected buffers. -/
def parse_inscription_content (s : Script) : Option InscriptionType :=
  classify_inscription (contentLoop s [] [] true).1 (contentLoop s [] [] true).2

/-- InscriptionParser::parse_script (inscription.rs 239-266): the first
two iterator items must be a decoded zero form (OP_FALSE, OP_0 or an
explicit empty push) followed by a decoded OP_IF; then the content loop
runs on the remainder; anything else yields nothing. -/
def parse_script (s : Script) : Option InscriptionType :=
  match s with
  | .ok first :: .ok (.op op2) :: rest =>
    if is_zero_instr first && (op2 = OP_IF) then parse_inscription_content rest
    else none
  | _ => none

/-- Loop body of InscriptionParser::extract_text_from_script
(inscription.rs 201-225): count successfully decoded pushes; on the
third one, hex-encode then hex-decode its payload and keep it as the
found text when it is valid UTF-8; all other items are ignored and the
loop always runs to the end of the stream. -/
def extractLoop : Script → Nat → Option (List Nat) → Option (List Nat)
  | [], _, found => found
  | .ok (.push d) :: rest, n, found =>
    if n + 1 = 3 then
      match hexDecode (hexEncode d) with
      | some decoded =>
        match string_from_utf8 decoded with
        | some t => extractLoop rest (n + 1) (some t)
        | none => extractLoop rest (n + 1) found
      | none => extractLoop rest (n + 1) found
    else extractLoop rest (n + 1) found
  | _ :: rest, n, found => extractLoop rest n found

/-- InscriptionParser::extract_text_from_script (inscription.rs 201-225). -/
def extract_text_from_script (s : Script) : Option (List Nat) :=
  extractLoop s 0 none

/-- The inputs pass of parse_transaction (inscription.rs 160-183): for
each input in order, when its previous output is the null sentinel try
the coinbase text extraction; the first success wins. -/
def findCoinbaseText : List TxIn → Option (List Nat)
  | [] => none
  | inp :: rest =>
    if inp.prevoutIsNull then
      match extract_text_from_script inp.scriptSig with
      | some t => some t
      | none => findCoinbaseText rest
    else findCoinbaseText rest

/-- The outputs pass of parse_transaction (inscription.rs 186-196): for
each output in order run parse_script; the first hit wins. -/
def findOutputInscription : List TxOut → Option InscriptionType
  | [] => none
  | o :: rest =>
    match parse_script o.scriptPubkey with
    | some c => some c
    | none => findOutputInscription rest

/-- InscriptionParser::parse_transaction (inscription.rs 156-198):
inputs pass first (coinbase text), then outputs pass (ordinal state
machine); the emitted Inscription carries the transaction's txid. -/
def parse_transaction (tx : Transaction) : Option Inscription :=
  match findCoinbaseText tx.input with
  | some t => some { txid := tx.txid, content := InscriptionType.text t }
  | none =>
    match findOutputInscription tx.output with
    | some content => some { txid := tx.txid, content := content }
    | none => none

/-- Substring test at the byte level, as Rust's str::contains with a
string pattern (an empty pattern always matches). -/
def containsSub : List Nat → List Nat → Bool
  | [], needle => needle.isEmpty
  | h :: t, needle => needle.isPrefixOf (h :: t) || containsSub t needle

/-- The ASCII bytes of Chancellor. -/
def kwChancellor : List Nat := [67, 104, 97, 110, 99, 101, 108, 108, 111, 114]

/-- The ASCII bytes of bank. -/
def kwBank : List Nat := [98, 97, 110, 107]

/-- The ASCII bytes of Times. -/
def kwTimes : List Nat := [84, 105, 109, 101, 115]

/-- The ASCII bytes of bailout. -/
def kwBailout : List Nat := [98, 97, 105, 108, 111, 117, 116]

/-- The demo keyword filter of ParallelParser::process_block
(parallel.rs 55-58). -/
def containsKeyword (t : List Nat) : Bool :=
  containsSub t kwChancellor || containsSub t kwBank ||
    containsSub t kwTimes || containsSub t kwBailout

/-- The per-transaction closure of ParallelParser::process_block
(parallel.rs 51-64): parse the transaction, keep only Text content whose
payload contains one of the demo keywords, and return the payload. -/
def processTx (tx : Transaction) : Option (List Nat) :=
  match parse_transaction tx with
  | some ins =>
    match ins.content with
    | InscriptionType.text t => if containsKeyword t then some t else none
    | _ => none
  | none => none

/-- ParallelParser::process_block (parallel.rs 48-67): an ordered
filter_map over the block's transactions (rayon's indexed filter_map
collects in input order). -/
def process_block (b : Block) : List (List Nat) :=
  b.txdata.filterMap processTx

/-- Fuel-driven chunking, modelling slice::par_chunks: chunks of n
elements in order, last chunk possibly shorter.  Fuel at least the list
length is enough when n is positive. -/
def chunksGo {α : Type} (n : Nat) : Nat → List α → List (List α)
  | _, [] => []
  | 0, _ :: _ => []
  | fuel + 1, x :: xs => ((x :: xs).take n) :: chunksGo n fuel ((x :: xs).drop n)

/-- slice::par_chunks with positive chunk size (a chunk size of zero
panics in Rust and is modelled as the empty chunk list). -/
def listChunks {α : Type} (n : Nat) (l : List α) : List (List α) :=
  if n = 0 then [] else chunksGo n l.length l

/-- ParallelParser::process_blocks (parallel.rs 28-46): split the block
batch into batch_size chunks, process every block of every chunk, and
concatenate the per-block results in order (rayon's par_chunks,
par_iter, flat_map and collect are order-preserving and deterministic). -/
def process_blocks (batchSize : Nat) (blocks : List Block) : List (List Nat) :=
  (listChunks batchSize blocks).flatMap fun chunk => chunk.flatMap process_block

/-- Rendering of a bitcoin Txid as a string (Display of the bitcoin
crate): the 32 hash bytes in reverse order, each as two lower-case hex
digits. -/
def txidToString (t : List Nat) : List Nat := t.reverse.flatMap byteToHex

/-- Parsing of a bitcoin Txid from a string (FromStr of the bitcoin
crate): exactly 64 hex digits, decoded to bytes and reversed. -/
def txidFromStr (s : List Nat) : Option (List Nat) :=
  if s.length = 64 then (hexPairsToBytes s).map List.reverse else none

/-- The serde data-model form produced by the custom Serialize impl for
Inscription (inscription.rs 68-81): a two-field struct holding the txid
rendered as a string and the content, the latter carried through the
derived (byte-preserving) encoding of InscriptionType unchanged. -/
structure SerializedInscription where
  txidStr : List Nat
  content : InscriptionType
deriving DecidableEq

/-- The custom Serialize impl for Inscription (inscription.rs 68-81). -/
def serializeInscription (ins : Inscription) : SerializedInscription :=
  { txidStr := txidToString ins.txid, content := ins.content }

/-- The custom Deserialize impl for Inscription (inscription.rs 84-135):
parse the txid string back with Txid::from_str (failure is a
deserialization error) and take the content field as decoded by the
derived encoding. -/
def deserializeInscription (s : SerializedInscription) : Option Inscription :=
  match txidFromStr s.txidStr with
  | some t => some { txid := t, content := s.content }
  | none => none

/-- The ordinal start sequence check: the first two items of the stream
are a decoded zero form followed by a decoded OP_IF (the condition under
which parse_script proceeds past its head match). -/
def startsWithOrdinal (s : Script) : Bool :=
  match s with
  | .ok first :: .ok (.op op2) :: _ => is_zero_instr first && (op2 = OP_IF)
  | _ => false

/-- Projection of a transaction input to everything except its witness
stack. -/
def stripWitness (i : TxIn) : Bool × Script × Nat :=
  (i.prevoutIsNull, i.scriptSig, i.sequence)

/-- A terminal decode-error marker: present or absent.  The instruction
iterator of the bitcoin crate exhausts its data on a decode error, so an
error can only ever be the last item of a realizable stream. -/
def errTail (e : Bool) : Script := if e then [InstrResult.err] else []

/-- The pushed payloads of the successfully decoded push items of a
stream, in order. -/
def pushPayloads (s : Script) : List (List Nat) :=
  s.filterMap fun r =>
    match r with
    | .ok (.push d) => some d
    | _ => none

/-- Example bytes: the genesis coinbase message. -/
def exGenesisText : List Nat :=
  [84, 104, 101, 32, 84, 105, 109, 101, 115, 32, 48, 51, 47, 74, 97, 110,
   47, 50, 48, 48, 57, 32, 67, 104, 97, 110, 99, 101, 108, 108, 111, 114,
   32, 111, 110, 32, 98, 114, 105, 110, 107, 32, 111, 102, 32, 115, 101,
   99, 111, 110, 100, 32, 98, 97, 105, 108, 111, 117, 116, 32, 102, 111,
   114, 32, 98, 97, 110, 107, 115]

/-- Example coinbase signature script: three pushes, the third carrying
the genesis text. -/
def exCbScript : Script :=
  [.ok (.push [97]), .ok (.push [98]), .ok (.push exGenesisText)]

/-- Example coinbase transaction. -/
def exCoinbaseTx : Transaction :=
  { version := 1, lockTime := 0, txid := [1],
    input := [{ prevoutIsNull := true, scriptSig := exCbScript,
                sequence := 0, witness := [] }],
    output := [] }

/-- Example block holding the coinbase transaction. -/
def exCoinbaseBlock : Block := { header := 0, txdata := [exCoinbaseTx] }

/-- Example transaction whose only output is a bare inscription envelope,
classified Unknown with empty payload. -/
def exUnknownTx : Transaction :=
  { version := 1, lockTime := 0, txid := [2], input := [],
    output := [{ value := 0,
                 scriptPubkey := [.ok (.push []), .ok (.op OP_IF), .ok (.op OP_ENDIF)] }] }

/-- Example block holding the Unknown-inscription transaction. -/
def exUnknownBlock : Block := { header := 0, txdata := [exUnknownTx] }

/-- Example transaction with one non-coinbase input and one empty output
script. -/
def exEmptyTx : Transaction :=
  { version := 1, lockTime := 0, txid := [3],
    input := [{ prevoutIsNull := false, scriptSig := [], sequence := 0, witness := [] }],
    output := [{ value := 0, scriptPubkey := [] }] }

/-- Example transaction with a nonempty witness stack on its coinbase
input. -/
def exWitnessTx1 : Transaction :=
  { version := 1, lockTime := 0, txid := [4],
    input := [{ prevoutIsNull := true, scriptSig := exCbScript,
                sequence := 0, witness := [[1, 2, 3]] }],
    output := [] }

/-- The same transaction with a different witness stack. -/
def exWitnessTx2 : Transaction :=
  { version := 1, lockTime := 0, txid := [4],
    input := [{ prevoutIsNull := true, scriptSig := exCbScript,
                sequence := 0, witness := [[9], [8]] }],
    output := [] }

/-- Example body of an inscription envelope (content type, separator,
content). -/
def exIfBody : List Instr :=
  [Instr.push textPlainType, Instr.op 0, Instr.push [104, 105]]

/-- Example inscription with a 32-byte txid. -/
def exInsC9 : Inscription :=
  { txid := List.replicate 32 171, content := InscriptionType.image imageSlash [0, 255] }

/-! Theorems -/

/-- Claim C4: the classifier returns nothing when the content-type bytes
are not valid UTF-8; on the exact type text/plain;charset=utf-8 it
returns Text of the UTF-8 decoded content bytes, or nothing when they
are not valid UTF-8; on a type beginning with image/ it returns Image
with that MIME string and the raw content bytes; in every other case it
returns Unknown of the content bytes, discarding the MIME string. -/
theorem claim_C4_classifier (ct c : List Nat) :
    (validUtf8 ct = false → classify_inscription ct c = none)
    ∧ (validUtf8 ct = true → ct = textPlainType →
        classify_inscription ct c =
          if validUtf8 c then some (InscriptionType.text c) else none)
    ∧ (validUtf8 ct = true → ct ≠ textPlainType → imageSlash.isPrefixOf ct = true →
        classify_inscription ct c = some (InscriptionType.image ct c))
    ∧ (validUtf8 ct = true → ct ≠ textPlainType → imageSlash.isPrefixOf ct = false →
        classify_inscription ct c = some (InscriptionType.unknown c)) := by
  refine ⟨?_, ?_, ?_, ?_⟩
  · intro h
    simp [classify_inscription, string_from_utf8, h]
  · intro h he
    subst he
    by_cases hc : validUtf8 c <;>
      simp [classify_inscription, string_from_utf8, h, hc]
  · intro h hne hpre
    simp [classify_inscription, string_from_utf8, h, hne, hpre]
  · intro h hne hpre
    simp [classify_inscription, string_from_utf8, h, hne, hpre]

/-- Witness for C4 at a concrete input: the exact text MIME type with
valid UTF-8 content classifies as Text of those bytes. -/
theorem claim_C4_witness :
    classify_inscription textPlainType [104, 105] =
      some (InscriptionType.text [104, 105]) := by
  have h := (claim_C4_classifier textPlainType [104, 105]).2.1 (by decide) rfl
  rw [h]
  decide

/-- Claim C6: parse_transaction returns either nothing or an Inscription
whose txid field equals the transaction's identifier. -/
theorem claim_C6_txid (tx : Transaction) (ins : Inscription)
    (h : parse_transaction tx = some ins) : ins.txid = tx.txid := by
  unfold parse_transaction at h
  cases hf : findCoinbaseText tx.input with
  | some t =>
    rw [hf] at h
    cases h
    rfl
  | none =>
    rw [hf] at h
    cases ho : findOutputInscription tx.output with
    | some content =>
      rw [ho] at h
      cases h
      rfl
    | none =>
      rw [ho] at h
      cases h

/-- Witness for C6: the coinbase example transaction yields an
inscription carrying its txid. -/
theorem claim_C6_witness :
    (({ txid := [1], content := InscriptionType.text exGenesisText } : Inscription)).txid
      = exCoinbaseTx.txid :=
  claim_C6_txid exCoinbaseTx _ (by decide)

/-- If no input has the null previous-output sentinel, the inputs pass
finds nothing. -/
theorem findCoinbaseText_eq_none (l : List TxIn)
    (h : ∀ i ∈ l, i.prevoutIsNull = false) : findCoinbaseText l = none := by
  induction l with
  | nil => rfl
  | cons a t ih =>
    have ha := h a (by simp)
    simp [findCoinbaseText, ha]
    exact ih fun i hi => h i (by simp [hi])

/-- A script that does not begin with the ordinal start sequence yields
nothing from the outputs state machine. -/
theorem parse_script_eq_none (s : Script) (h : startsWithOrdinal s = false) :
    parse_script s = none := by
  unfold parse_script
  split
  · rename_i first op2 rest
    simp [startsWithOrdinal] at h
    split_ifs with hcond
    · rw [Bool.and_eq_true, decide_eq_true_eq] at hcond
      exact absurd hcond.2 (h hcond.1)
    · rfl
  · rfl

/-- If no output script begins with the ordinal start sequence, the
outputs pass finds nothing. -/
theorem findOutputInscription_eq_none (l : List TxOut)
    (h : ∀ o ∈ l, startsWithOrdinal o.scriptPubkey = false) :
    findOutputInscription l = none := by
  induction l with
  | nil => rfl
  | cons o t ih =>
    have ho := parse_script_eq_none o.scriptPubkey (h o (by simp))
    simp [findOutputInscription, ho]
    exact ih fun x hx => h x (by simp [hx])

/-- Claim C7: a transaction with no coinbase input and no output whose
script begins with the ordinal start sequence (a zero form followed
immediately by OP_IF as the first two instructions) parses to nothing;
in particular an empty script never contributes an inscription. -/
theorem claim_C7_no_hit (tx : Transaction)
    (h1 : ∀ i ∈ tx.input, i.prevoutIsNull = false)
    (h2 : ∀ o ∈ tx.output, startsWithOrdinal o.scriptPubkey = false) :
    parse_transaction tx = none := by
  unfold parse_transaction
  rw [findCoinbaseText_eq_none tx.input h1, findOutputInscription_eq_none tx.output h2]

/-- Witness for C7: a transaction with one non-coinbase input and one
empty output script parses to nothing. -/
theorem claim_C7_witness : parse_transaction exEmptyTx = none :=
  claim_C7_no_hit exEmptyTx (by decide) (by decide)

/-- Claim C5: the three zero forms (OP_FALSE and OP_0, both the opcode
0x00, and an explicit empty push) are interchangeable both as the
lead-in instruction before OP_IF and as the content-type/content
separator consumed by the one-token lookahead. -/
theorem claim_C5_zero_forms (z1 z2 : Instr)
    (h1 : is_zero_instr z1 = true) (h2 : is_zero_instr z2 = true) :
    (∀ rest : Script,
      parse_script (.ok z1 :: rest) = parse_script (.ok z2 :: rest))
    ∧ (∀ (d ct c : List Nat) (rest : Script),
      contentLoop (.ok (.push d) :: .ok z1 :: rest) ct c true =
        contentLoop (.ok (.push d) :: .ok z2 :: rest) ct c true) := by
  constructor
  · intro rest
    match rest with
    | [] => rfl
    | .err :: rest2 => rfl
    | .ok (.push p) :: rest2 => rfl
    | .ok (.op code) :: rest2 =>
      simp [parse_script, h1, h2]
  · intro d ct c rest
    simp [contentLoop, contentLoopGo, h1, h2]

/-- Witness for C5 applied to the opcode-zero and empty-push forms at a
concrete stream. -/
theorem claim_C5_witness :
    parse_script (.ok (.op 0) :: [.ok (.op OP_IF), .ok (.op OP_ENDIF)]) =
      parse_script (.ok (.push []) :: [.ok (.op OP_IF), .ok (.op OP_ENDIF)]) :=
  (claim_C5_zero_forms (.op 0) (.push []) (by decide) (by decide)).1
    [.ok (.op OP_IF), .ok (.op OP_ENDIF)]

/-- The inputs pass depends on an input list only through the null flag
and signature script of each input, not its witness stack. -/
theorem findCoinbaseText_congr (l1 l2 : List TxIn)
    (h : l1.map stripWitness = l2.map stripWitness) :
    findCoinbaseText l1 = findCoinbaseText l2 := by
  induction l1 generalizing l2 with
  | nil =>
    have : l2 = [] := by
      cases l2 with
      | nil => rfl
      | cons b t2 => simp at h
    rw [this]
  | cons a t ih =>
    cases l2 with
    | nil => simp at h
    | cons b t2 =>
      simp only [List.map_cons, List.cons.injEq] at h
      obtain ⟨h1, h2⟩ := h
      simp only [stripWitness, Prod.mk.injEq] at h1
      obtain ⟨hp, hs, _⟩ := h1
      simp only [findCoinbaseText, hp, hs]
      by_cases hb : b.prevoutIsNull
      · simp only [hb, if_true]
        cases hx : extract_text_from_script b.scriptSig with
        | some t0 => rfl
        | none => exact ih t2 h2
      · simp only [hb, if_false]
        exact ih t2 h2

/-- Claim C8: two transactions identical except for the witness stacks
of their inputs parse identically; the parser never consults witness
data. -/
theorem claim_C8_no_witness_dependence (tx1 tx2 : Transaction)
    (_hv : tx1.version = tx2.version) (_hl : tx1.lockTime = tx2.lockTime)
    (ht : tx1.txid = tx2.txid)
    (hi : tx1.input.map stripWitness = tx2.input.map stripWitness)
    (ho : tx1.output = tx2.output) :
    parse_transaction tx1 = parse_transaction tx2 := by
  unfold parse_transaction
  rw [ht, ho, findCoinbaseText_congr tx1.input tx2.input hi]

/-- Witness for C8: two concrete transactions differing only in their
witness stacks parse identically. -/
theorem claim_C8_witness :
    parse_transaction exWitnessTx1 = parse_transaction exWitnessTx2 :=
  claim_C8_no_witness_dependence exWitnessTx1 exWitnessTx2 rfl rfl rfl (by decide) rfl

/-- The collection loop stops immediately on a leading decode error,
whatever the fuel. -/
theorem contentLoopGo_err_head (fuel : Nat) (t : Script) (ct c : List Nat)
    (rct : Bool) : contentLoopGo fuel (.err :: t) ct c rct = (ct, c) := by
  cases fuel <;> rfl

/-- The collection loop stops at the end of the stream, whatever the
fuel. -/
theorem contentLoopGo_nil (fuel : Nat) (ct c : List Nat) (rct : Bool) :
    contentLoopGo fuel [] ct c rct = (ct, c) := by
  cases fuel <;> rfl

/-- Any fuel at least the stream length gives the same result; the loop
consumes at least one item per unit of fuel. -/
theorem contentLoopGo_fuel_irrel :
    ∀ (f1 f2 : Nat) (s : Script) (ct c : List Nat) (rct : Bool),
      s.length ≤ f1 → s.length ≤ f2 →
      contentLoopGo f1 s ct c rct = contentLoopGo f2 s ct c rct := by
  intro f1
  induction f1 with
  | zero =>
    intro f2 s ct c rct h1 h2
    have hs : s = [] := List.eq_nil_of_length_eq_zero (Nat.le_zero.mp h1)
    subst hs
    rw [contentLoopGo_nil, contentLoopGo_nil]
  | succ f ih =>
    intro f2 s ct c rct h1 h2
    cases s with
    | nil => rw [contentLoopGo_nil, contentLoopGo_nil]
    | cons r rest =>
      cases f2 with
      | zero => simp at h2
      | succ f2p =>
        cases r with
        | err => rw [contentLoopGo_err_head, contentLoopGo_err_head]
        | ok i =>
          cases i with
          | op code =>
            by_cases hc : code = OP_ENDIF
            · simp [contentLoopGo, hc]
            · simp only [contentLoopGo, hc, if_false]
              exact ih f2p rest ct c rct (by simp at h1; omega) (by simp at h2; omega)
          | push d =>
            cases rct with
            | false =>
              simp only [contentLoopGo, if_false, Bool.false_eq_true]
              exact ih f2p rest ct (c ++ d) false (by simp at h1; omega)
                (by simp at h2; omega)
            | true =>
              cases rest with
              | nil =>
                simp only [contentLoopGo, if_true]
                rw [contentLoopGo_nil, contentLoopGo_nil]
              | cons r2 rest2 =>
                cases r2 with
                | err =>
                  simp only [contentLoopGo, if_true]
                  rw [contentLoopGo_err_head, contentLoopGo_err_head]
                | ok j =>
                  by_cases hz : is_zero_instr j
                  · simp only [contentLoopGo, if_true, hz]
                    exact ih f2p rest2 (ct ++ d) c false (by simp at h1; omega)
                      (by simp at h2; omega)
                  · simp only [contentLoopGo, if_true, hz, Bool.false_eq_true, if_false]
                    exact ih f2p (.ok j :: rest2) (ct ++ d) c true
                      (by simp at h1 ⊢; omega) (by simp at h2 ⊢; omega)

/-- With enough fuel, a terminal decode-error marker does not change the
collection loop's result: it is not consumed as a separator by the
lookahead, and the loop ends with the same buffers as at end of
stream. -/
theorem contentLoopGo_err_tail :
    ∀ (f : Nat) (l : List Instr) (ct c : List Nat) (rct : Bool),
      l.length + 1 ≤ f →
      contentLoopGo f (l.map .ok ++ [.err]) ct c rct =
        contentLoopGo f (l.map .ok) ct c rct := by
  intro f
  induction f with
  | zero => intro l ct c rct h; exact absurd h (by omega)
  | succ f ih =>
    intro l ct c rct h
    cases l with
    | nil =>
      simp only [List.map_nil, List.nil_append]
      rw [contentLoopGo_err_head, contentLoopGo_nil]
    | cons i rest =>
      cases i with
      | op code =>
        by_cases hc : code = OP_ENDIF
        · simp [contentLoopGo, hc]
        · simp only [List.map_cons, List.cons_append, contentLoopGo, hc, if_false]
          exact ih rest ct c rct (by simp at h ⊢; omega)
      | push d =>
        cases rct with
        | false =>
          simp only [List.map_cons, List.cons_append, contentLoopGo, if_false,
            Bool.false_eq_true]
          exact ih rest ct (c ++ d) false (by simp at h ⊢; omega)
        | true =>
          cases rest with
          | nil =>
            simp only [List.map_cons, List.map_nil, List.cons_append,
              List.nil_append, contentLoopGo, if_true, List.append_eq]
            rw [contentLoopGo_err_head, contentLoopGo_nil]
          | cons j rest2 =>
            by_cases hz : is_zero_instr j
            · simp only [List.map_cons, List.cons_append, contentLoopGo, if_true, hz,
                List.append_eq]
              exact ih rest2 (ct ++ d) c false (by simp at h ⊢; omega)
            · simp only [List.map_cons, List.cons_append, contentLoopGo, if_true, hz,
                Bool.false_eq_true, if_false, List.append_eq]
              exact ih (j :: rest2) (ct ++ d) c true (by simp at h ⊢; omega)

/-- A terminal decode-error marker does not change the collection
loop. -/
theorem contentLoop_err_tail (l : List Instr) (ct c : List Nat) (rct : Bool) :
    contentLoop (l.map .ok ++ [.err]) ct c rct = contentLoop (l.map .ok) ct c rct := by
  unfold contentLoop
  have hlen : (l.map InstrResult.ok ++ [InstrResult.err]).length = l.length + 1 := by
    simp
  rw [hlen, contentLoopGo_err_tail (l.length + 1) l ct c rct (by omega),
    List.length_map]
  exact contentLoopGo_fuel_irrel (l.length + 1) l.length (l.map .ok) ct c rct
    (by simp) (by simp)

/-- Claim C2: once the output script has entered the IF block (zero
lead-in then OP_IF), a malformed instruction — which the script reader
can only produce as the final item of the stream — is silently skipped:
it is consumed neither as the content-type/content separator nor as a
terminator distinct from end of stream, the machine's result is the
same as without it, and the collected content-type and content buffers
are then classified. -/
theorem claim_C2_decode_error_in_if (z : Instr) (body : List Instr) (e : Bool)
    (hz : is_zero_instr z = true) :
    parse_script (.ok z :: .ok (.op OP_IF) :: (body.map .ok ++ errTail e)) =
      classify_inscription (contentLoop (body.map .ok) [] [] true).1
        (contentLoop (body.map .ok) [] [] true).2 := by
  have hstep :
      parse_script (.ok z :: .ok (.op OP_IF) :: (body.map .ok ++ errTail e)) =
        parse_inscription_content (body.map .ok ++ errTail e) := by
    simp [parse_script, hz]
  rw [hstep]
  unfold parse_inscription_content
  cases e with
  | false => simp [errTail]
  | true => rw [show errTail true = [InstrResult.err] from rfl, contentLoop_err_tail]

/-- Witness for C2 at a concrete envelope body with the decode-error
marker present. -/
theorem claim_C2_witness :
    parse_script (.ok (.op 0) :: .ok (.op OP_IF) :: (exIfBody.map .ok ++ errTail true)) =
      classify_inscription (contentLoop (exIfBody.map .ok) [] [] true).1
        (contentLoop (exIfBody.map .ok) [] [] true).2 :=
  claim_C2_decode_error_in_if (.op 0) exIfBody true (by decide)

/-- Hex digit characters decode back to their nibble. -/
theorem hexDigit_round : ∀ n, n < 16 → hexDigitVal (hexDigitChar n) = some n := by
  decide

/-- Decoding one encoded byte off the front of a hex character list. -/
theorem hexPairs_byte_cons (b : Nat) (hb : b < 256) (rest : List Nat) :
    hexPairsToBytes (byteToHex b ++ rest) =
      (hexPairsToBytes rest).map fun bs => b :: bs := by
  have h1 : b / 16 % 16 < 16 := Nat.mod_lt _ (by omega)
  have h2 : b % 16 < 16 := Nat.mod_lt _ (by omega)
  simp only [byteToHex, List.cons_append, List.nil_append, List.append_eq,
    hexPairsToBytes]
  rw [hexDigit_round _ h1, hexDigit_round _ h2]
  cases hr : hexPairsToBytes rest with
  | none => rfl
  | some bs =>
    have hbyte : 16 * (b / 16 % 16) + b % 16 = b := by omega
    simp [hbyte]

/-- hex::decode inverts hex::encode on byte lists. -/
theorem hexRound (l : List Nat) (hl : ∀ b ∈ l, b < 256) :
    hexPairsToBytes (l.flatMap byteToHex) = some l := by
  induction l with
  | nil => rfl
  | cons b t ih =>
    rw [List.flatMap_cons, hexPairs_byte_cons b (hl b (by simp)) _,
      ih fun x hx => hl x (by simp [hx])]
    rfl

/-- After the third successful push has been seen, the extraction loop
never changes its result. -/
theorem extractLoop_ge3 :
    ∀ (s : Script) (n : Nat) (found : Option (List Nat)),
      3 ≤ n → extractLoop s n found = found := by
  intro s
  induction s with
  | nil => intro n found _; rfl
  | cons r rest ih =>
    intro n found h
    cases r with
    | err =>
      simp only [extractLoop]
      exact ih n found h
    | ok i =>
      cases i with
      | op code =>
        simp only [extractLoop]
        exact ih n found h
      | push d =>
        simp only [extractLoop]
        rw [if_neg (by omega)]
        exact ih (n + 1) found (by omega)

/-- The extraction loop, having already counted n < 3 pushes, is decided
by the (3-n)-th successful push payload of the remaining stream. -/
theorem extractLoop_spec :
    ∀ (s : Script) (n : Nat) (found : Option (List Nat)),
      n < 3 → (∀ d ∈ pushPayloads s, ∀ b ∈ d, b < 256) →
      extractLoop s n found =
        match (pushPayloads s)[2 - n]? with
        | some p => if validUtf8 p then some p else found
        | none => found := by
  intro s
  induction s with
  | nil => intro n found _ _; rfl
  | cons r rest ih =>
    intro n found hn hv
    cases r with
    | err =>
      have hp : pushPayloads (.err :: rest) = pushPayloads rest := by
        simp [pushPayloads]
      rw [hp] at hv ⊢
      simp only [extractLoop]
      exact ih n found hn hv
    | ok i =>
      cases i with
      | op code =>
        have hp : pushPayloads (.ok (.op code) :: rest) = pushPayloads rest := by
          simp [pushPayloads]
        rw [hp] at hv ⊢
        simp only [extractLoop]
        exact ih n found hn hv
      | push d =>
        have hp : pushPayloads (.ok (.push d) :: rest) = d :: pushPayloads rest := by
          simp [pushPayloads]
        rw [hp] at hv ⊢
        have hd : ∀ b ∈ d, b < 256 := hv d (by simp)
        have hrest : ∀ x ∈ pushPayloads rest, ∀ b ∈ x, b < 256 :=
          fun x hx => hv x (by simp [hx])
        simp only [extractLoop]
        by_cases h2 : n = 2
        · subst h2
          rw [if_pos rfl]
          rw [show hexDecode (hexEncode d) = some d from hexRound d hd]
          simp only [string_from_utf8]
          by_cases hu : validUtf8 d
          · rw [if_pos hu]
            show extractLoop rest (2 + 1) (some d) = _
            rw [extractLoop_ge3 rest (2 + 1) (some d) (by omega)]
            simp [hu]
          · rw [if_neg hu]
            show extractLoop rest (2 + 1) found = _
            rw [extractLoop_ge3 rest (2 + 1) found (by omega)]
            simp [hu]
        · rw [if_neg (by omega)]
          rw [ih (n + 1) found (by omega) hrest]
          have hidx : 2 - n = (2 - (n + 1)) + 1 := by omega
          rw [hidx, List.getElem?_cons_succ]

/-- Claim C3: on a coinbase signature script the extraction counts
successfully decoded pushes only — opcodes and decode errors between
them neither count nor reset the count — takes the payload of the third
push, and yields exactly those bytes precisely when they are valid
UTF-8; a script with fewer than three pushes yields no text. -/
theorem claim_C3_third_push (s : Script)
    (h : ∀ d ∈ pushPayloads s, ∀ b ∈ d, b < 256) :
    extract_text_from_script s =
      match (pushPayloads s)[2]? with
      | some p => if validUtf8 p then some p else none
      | none => none :=
  extractLoop_spec s 0 none (by omega) h

/-- Witness for C3 at the example coinbase script with three pushes. -/
theorem claim_C3_witness :
    extract_text_from_script exCbScript =
      match (pushPayloads exCbScript)[2]? with
      | some p => if validUtf8 p then some p else none
      | none => none :=
  claim_C3_third_push exCbScript (by decide)

/-- Hex encoding doubles the length. -/
theorem flatMap_byteToHex_length (l : List Nat) :
    (l.flatMap byteToHex).length = 2 * l.length := by
  induction l with
  | nil => rfl
  | cons b t ih =>
    simp only [List.flatMap_cons, List.length_append, ih, byteToHex,
      List.length_cons, List.length_nil]
    omega

/-- Claim C9: serializing an Inscription (txid rendered as its reversed
lower-case hex string, content carried through the byte-preserving
derived encoding) and deserializing the result restores the original
value, for any txid of 32 bytes and any of the three content variants
with arbitrary payloads. -/
theorem claim_C9_roundtrip (ins : Inscription) (hlen : ins.txid.length = 32)
    (hb : ∀ b ∈ ins.txid, b < 256) :
    deserializeInscription (serializeInscription ins) = some ins := by
  unfold serializeInscription deserializeInscription txidFromStr txidToString
  have h64 : (ins.txid.reverse.flatMap byteToHex).length = 64 := by
    rw [flatMap_byteToHex_length, List.length_reverse, hlen]
  rw [if_pos h64]
  have hrev : ∀ b ∈ ins.txid.reverse, b < 256 :=
    fun b hbm => hb b (List.mem_reverse.mp hbm)
  rw [hexRound _ hrev]
  simp

/-- Witness for C9 at a concrete inscription with a 32-byte txid. -/
theorem claim_C9_witness :
    deserializeInscription (serializeInscription exInsC9) = some exInsC9 :=
  claim_C9_roundtrip exInsC9 (by decide) (by decide)

/-- Processing chunk by chunk and concatenating equals processing the
whole list, for a positive chunk size and enough fuel. -/
theorem chunksGo_flatMap {α β : Type} (f : α → List β) (n : Nat) (hn : 0 < n) :
    ∀ (fuel : Nat) (l : List α), l.length ≤ fuel →
      (chunksGo n fuel l).flatMap (fun chunk => chunk.flatMap f) = l.flatMap f := by
  intro fuel
  induction fuel with
  | zero =>
    intro l h
    have hl : l = [] := List.eq_nil_of_length_eq_zero (Nat.le_zero.mp h)
    subst hl
    rfl
  | succ fu ih =>
    intro l h
    cases l with
    | nil => rfl
    | cons x xs =>
      simp only [List.length_cons] at h
      simp only [chunksGo, List.flatMap_cons]
      rw [ih ((x :: xs).drop n) (by simp only [List.length_drop, List.length_cons]; omega)]
      rw [← List.flatMap_append, List.take_append_drop, List.flatMap_cons]

/-- Pushing a filterMap through a flatMap. -/
theorem flatMap_filterMap {α β γ : Type} (g : α → List β) (h : β → Option γ) :
    ∀ l : List α,
      (l.flatMap fun a => (g a).filterMap h) = (l.flatMap g).filterMap h := by
  intro l
  induction l with
  | nil => rfl
  | cons a t ih => simp [List.flatMap_cons, List.filterMap_append, ih]

/-- For a positive batch size, the chunked parallel pipeline equals the
sequential per-block, per-transaction filter over the concatenated
transactions. -/
theorem process_blocks_seq (bs : Nat) (blocks : List Block) (h : 0 < bs) :
    process_blocks bs blocks =
      (blocks.flatMap fun b => b.txdata).filterMap processTx := by
  unfold process_blocks listChunks
  rw [if_neg (by omega)]
  rw [chunksGo_flatMap process_block bs h blocks.length blocks le_rfl]
  exact flatMap_filterMap (fun b => b.txdata) processTx blocks

/-- Claim C1 counterexample: a batch holding one transaction in which
the Parser detects an (Unknown) inscription, for which process_blocks
returns no element at all — the code filters to keyword-matching Text
payloads and returns strings, not one element per detected
inscription. -/
theorem claim_C1_counterexample :
    (process_blocks 1 [exUnknownBlock]).length = 0 ∧
      (([exUnknownBlock].flatMap fun b => b.txdata).filterMap parse_transaction).length
        = 1 := by
  decide

/-- Claim C1 (amended): for a positive batch size, process_blocks equals
sequential per-block, per-transaction processing — the chunking is
invisible and the returned payloads appear in block-then-transaction
order — but each element is the text payload of a keyword-filtered Text
inscription, not one element per detected inscription. -/
theorem claim_C1_amended (bs : Nat) (blocks : List Block) (h : 0 < bs) :
    process_blocks bs blocks =
      (blocks.flatMap fun b => b.txdata).filterMap processTx :=
  process_blocks_seq bs blocks h

/-- Witness for the amended C1 at a concrete batch. -/
theorem claim_C1_witness :
    process_blocks 1 [exCoinbaseBlock] =
      ([exCoinbaseBlock].flatMap fun b => b.txdata).filterMap processTx :=
  claim_C1_amended 1 [exCoinbaseBlock] (by decide)

/-- Claim C10: every element returned by process_blocks is the string
payload of a Text inscription parsed from some transaction of the input
blocks and contains one of the four demo keywords; Image and Unknown
inscriptions, and Text payloads without a keyword, never contribute. -/
theorem claim_C10_filter_sound (bs : Nat) (blocks : List Block) (t : List Nat)
    (h : t ∈ process_blocks bs blocks) :
    ∃ tx ∈ blocks.flatMap fun b => b.txdata, ∃ ins,
      parse_transaction tx = some ins ∧ ins.content = InscriptionType.text t ∧
        containsKeyword t = true := by
  rcases Nat.eq_zero_or_pos bs with hbs | hbs
  · subst hbs
    simp [process_blocks, listChunks] at h
  · rw [process_blocks_seq bs blocks hbs, List.mem_filterMap] at h
    obtain ⟨tx, htx, hp⟩ := h
    refine ⟨tx, htx, ?_⟩
    cases hparse : parse_transaction tx with
    | none => simp [processTx, hparse] at hp
    | some ins =>
      obtain ⟨tid, content⟩ := ins
      cases content with
      | text t0 =>
        simp only [processTx, hparse] at hp
        by_cases hk : containsKeyword t0
        · rw [if_pos hk] at hp
          rw [Option.some_inj] at hp
          subst hp
          exact ⟨_, rfl, rfl, hk⟩
        · rw [if_neg hk] at hp
          simp at hp
      | image m d0 => simp [processTx, hparse] at hp
      | unknown b0 => simp [processTx, hparse] at hp

/-- Witness for C10: the genesis text returned for the example batch
comes from its coinbase transaction and contains a keyword. -/
theorem claim_C10_witness :
    ∃ tx ∈ [exCoinbaseBlock].flatMap fun b => b.txdata, ∃ ins,
      parse_transaction tx = some ins ∧
        ins.content = InscriptionType.text exGenesisText ∧
        containsKeyword exGenesisText = true :=
  claim_C10_filter_sound 1 [exCoinbaseBlock] exGenesisText (by decide)

end Scanner
